import Mathlib

/-!
Shallow embedding of the kwantrace_r ray-tracer core
(`src/src/vector.rs`, `src/src/transform.rs`, `src/src/render.rs`,
`src/src/main.rs`).

Modelling conventions:
* `f64` values are modelled as real numbers (`ℝ`); finite arithmetic is exact.
  IEEE special values (NaN/±∞) are modelled separately by the `F64` type,
  used only for the singular-matrix-inverse analysis where the source divides
  by zero.
* A Rust `Vec` index panic (out-of-bounds `self[0]`) is modelled with an
  `Option` panic channel: the function returns `none` exactly when the source
  panics.
* Trait objects (`Box<dyn Render>` children of a `Union`) are modelled by
  their observable behaviour: each child is a function `Ray → Option ℝ`
  (its `intersect` method).
-/

namespace Kwantrace

noncomputable section

/-- Source `vector.rs` lines 6–10: position vector (implicit w = 1). -/
@[ext]
structure Position where
  x : ℝ
  y : ℝ
  z : ℝ

/-- Source `vector.rs` lines 17–21: direction vector (ignores translation). -/
@[ext]
structure Direction where
  x : ℝ
  y : ℝ
  z : ℝ

/-- Source `vector.rs` lines 165–169: the `Vector` trait's `dot`, at
`Position`/`Position` (used as `r0.dot(&r0)`). -/
def Position.dot (a b : Position) : ℝ :=
  a.x * b.x + a.y * b.y + a.z * b.z

/-- The trait `dot` at `Position`/`Direction` (used as `r0.dot(&v)`).
Same defaulted body as `Position.dot`; Lean needs a separate name for the
mixed-argument instantiation. -/
def Position.dotDir (a : Position) (b : Direction) : ℝ :=
  a.x * b.x + a.y * b.y + a.z * b.z

/-- The trait `dot` at `Direction`/`Direction` (used as `v.dot(&v)`). -/
def Direction.dot (a b : Direction) : ℝ :=
  a.x * b.x + a.y * b.y + a.z * b.z

/-- Source `vector.rs` lines 36–40: `Position::add_dir`. -/
def Position.add_dir (a : Position) (rhs : Direction) : Position :=
  ⟨a.x + rhs.x, a.y + rhs.y, a.z + rhs.z⟩

/-- Source `vector.rs` lines 44–48: `Direction::add_dir`. -/
def Direction.add_dir (a rhs : Direction) : Direction :=
  ⟨a.x + rhs.x, a.y + rhs.y, a.z + rhs.z⟩

/-- Source `vector.rs` lines 62–64: 3×3 matrix. The array `e:[[f64;3];3]`
is flattened into nine fields; `eRC` is `e[R][C]`. -/
@[ext]
structure Matrix3x3 where
  e00 : ℝ
  e01 : ℝ
  e02 : ℝ
  e10 : ℝ
  e11 : ℝ
  e12 : ℝ
  e20 : ℝ
  e21 : ℝ
  e22 : ℝ

/-- Source `vector.rs` lines 67–92: `Matrix3x3::mul`, the manually unrolled
standard matrix product. -/
def Matrix3x3.mul (a b : Matrix3x3) : Matrix3x3 :=
  ⟨a.e00*b.e00 + a.e01*b.e10 + a.e02*b.e20,
   a.e00*b.e01 + a.e01*b.e11 + a.e02*b.e21,
   a.e00*b.e02 + a.e01*b.e12 + a.e02*b.e22,
   a.e10*b.e00 + a.e11*b.e10 + a.e12*b.e20,
   a.e10*b.e01 + a.e11*b.e11 + a.e12*b.e21,
   a.e10*b.e02 + a.e11*b.e12 + a.e12*b.e22,
   a.e20*b.e00 + a.e21*b.e10 + a.e22*b.e20,
   a.e20*b.e01 + a.e21*b.e11 + a.e22*b.e21,
   a.e20*b.e02 + a.e21*b.e12 + a.e22*b.e22⟩

/-- Source `vector.rs` lines 93–97: `Matrix3x3::mul_pos`. -/
def Matrix3x3.mul_pos (m : Matrix3x3) (rhs : Position) : Position :=
  ⟨m.e00*rhs.x + m.e01*rhs.y + m.e02*rhs.z,
   m.e10*rhs.x + m.e11*rhs.y + m.e12*rhs.z,
   m.e20*rhs.x + m.e21*rhs.y + m.e22*rhs.z⟩

/-- Source `vector.rs` lines 98–102: `Matrix3x3::mul_dir`. -/
def Matrix3x3.mul_dir (m : Matrix3x3) (rhs : Direction) : Direction :=
  ⟨m.e00*rhs.x + m.e01*rhs.y + m.e02*rhs.z,
   m.e10*rhs.x + m.e11*rhs.y + m.e12*rhs.z,
   m.e20*rhs.x + m.e21*rhs.y + m.e22*rhs.z⟩

/-- Source `vector.rs` lines 103–107: `Matrix3x3::mul_neg_dir`. -/
def Matrix3x3.mul_neg_dir (m : Matrix3x3) (rhs : Direction) : Direction :=
  ⟨-(m.e00*rhs.x + m.e01*rhs.y + m.e02*rhs.z),
   -(m.e10*rhs.x + m.e11*rhs.y + m.e12*rhs.z),
   -(m.e20*rhs.x + m.e21*rhs.y + m.e22*rhs.z)⟩

/-- The determinant expression `a*A + b*B + c*C` exactly as computed inside
`Matrix3x3::inv` (source `vector.rs` lines 117–126). -/
def Matrix3x3.det (m : Matrix3x3) : ℝ :=
  m.e00 * (m.e11*m.e22 - m.e12*m.e21) +
  m.e01 * (m.e12*m.e20 - m.e10*m.e22) +
  m.e02 * (m.e10*m.e21 - m.e11*m.e20)

/-- Source `vector.rs` lines 117–130: `Matrix3x3::inv`, cofactor/adjugate
inverse with `detinv = 1.0/(a*A+b*B+c*C)`. Division is the real-number
total division (`x / 0 = 0`); IEEE behaviour at a zero determinant is
modelled separately by `Matrix3x3.inv_f64`. -/
def Matrix3x3.inv (m : Matrix3x3) : Matrix3x3 :=
  let a := m.e00; let b := m.e01; let c := m.e02
  let d := m.e10; let e := m.e11; let f := m.e12
  let g := m.e20; let h := m.e21; let i := m.e22
  let A := e*i - f*h; let D := c*h - b*i; let G := b*f - c*e
  let B := f*g - d*i; let E := a*i - c*g; let H := c*d - a*f
  let C := d*h - e*g; let F := b*g - a*h; let I := a*e - b*d
  let detinv := 1 / (a*A + b*B + c*C)
  ⟨A*detinv, D*detinv, G*detinv,
   B*detinv, E*detinv, H*detinv,
   C*detinv, F*detinv, I*detinv⟩

/-- Source `vector.rs` lines 133–136: homogeneous transform = linear part
plus translation. -/
@[ext]
structure HMatrix where
  M : Matrix3x3
  T : Direction

/-- Source `vector.rs` lines 139–142: `HMatrix::mul`. The linear part is
computed as `self.M.mul(&self.M)` — the left operand multiplied by itself —
exactly as in the source (both copies, `vector.rs` 139–142 and `main.rs`
161–164, have this form). -/
def HMatrix.mul (a _rhs : HMatrix) : HMatrix :=
  ⟨a.M.mul a.M, (a.M.mul_dir _rhs.T).add_dir a.T⟩

/-- Source `vector.rs` lines 143–145: `HMatrix::mul_dir` (translation
ignored). -/
def HMatrix.mul_dir (h : HMatrix) (rhs : Direction) : Direction :=
  h.M.mul_dir rhs

/-- Source `vector.rs` lines 146–148: `HMatrix::mul_pos`. -/
def HMatrix.mul_pos (h : HMatrix) (rhs : Position) : Position :=
  (h.M.mul_pos rhs).add_dir h.T

/-- Source `vector.rs` lines 149–152: `HMatrix::inv`. -/
def HMatrix.inv (h : HMatrix) : HMatrix :=
  let Am1 := h.M.inv
  ⟨Am1, Am1.mul_neg_dir h.T⟩

/-- Modelled from the spec: `HMatrix::identity()` is called by the source
(`render.rs` lines 34 and 110, `transform.rs` line 111) but its definition is
not under `src/`. Spec §4.3: M = 3×3 identity, T = zero direction. -/
def HMatrix.identity : HMatrix :=
  ⟨⟨1, 0, 0, 0, 1, 0, 0, 0, 1⟩, ⟨0, 0, 0⟩⟩

/-- Spec-side composition, for comparison against the source `HMatrix::mul`
(spec §4.3): linear part `A.M · B.M`, translation `A.M·B.T + A.T`. -/
def HMatrix.composeSpec (a b : HMatrix) : HMatrix :=
  ⟨a.M.mul b.M, (a.M.mul_dir b.T).add_dir a.T⟩

/-- Source `vector.rs` lines 172–175 / `main.rs` lines 286–289: a ray. -/
@[ext]
structure Ray where
  r0 : Position
  v : Direction

/-- Modelled from the spec: `HMatrix::mul_ray` is called by the source
(`render.rs` line 13) but its definition is not under `src/`. Spec §4.3
`apply_to_ray`: transform the origin as a position and the direction as a
direction. -/
def HMatrix.mul_ray (h : HMatrix) (rv : Ray) : Ray :=
  ⟨h.mul_pos rv.r0, h.mul_dir rv.v⟩

/-- Source `transform.rs` lines 7–100: the primitive transform ops. Each
carries the constructor parameters of the corresponding Rust struct. -/
inductive TransformOp where
  | translate (x y z : ℝ)
  | uniformScale (S : ℝ)
  | scale (x y z : ℝ)
  | rotateX (S : ℝ)
  | rotateY (S : ℝ)
  | rotateZ (S : ℝ)

/-- Source `transform.rs` lines 16–100: `get_matrix` of each transform op. -/
def TransformOp.get_matrix : TransformOp → HMatrix
  | .translate x y z => ⟨⟨1, 0, 0, 0, 1, 0, 0, 0, 1⟩, ⟨x, y, z⟩⟩
  | .uniformScale S => ⟨⟨S, 0, 0, 0, S, 0, 0, 0, S⟩, ⟨0, 0, 0⟩⟩
  | .scale x y z => ⟨⟨x, 0, 0, 0, y, 0, 0, 0, z⟩, ⟨0, 0, 0⟩⟩
  | .rotateX S =>
      ⟨⟨1, 0, 0, 0, Real.cos S, -Real.sin S, 0, Real.sin S, Real.cos S⟩,
       ⟨0, 0, 0⟩⟩
  | .rotateY S =>
      ⟨⟨Real.cos S, 0, Real.sin S, 0, 1, 0, -Real.sin S, 0, Real.cos S⟩,
       ⟨0, 0, 0⟩⟩
  | .rotateZ S =>
      ⟨⟨Real.cos S, -Real.sin S, 0, Real.sin S, Real.cos S, 0, 0, 0, 1⟩,
       ⟨0, 0, 0⟩⟩

/-- Source `transform.rs` lines 108–117: `impl Transform for TransformList`.
The body first evaluates `&self[0]` (a dead binding), which panics on an
empty list — modelled by the `none` branch — then folds the whole list with
`result = subtrans.get_matrix().mul(&result)` starting from the identity. -/
def TransformList.get_matrix (l : List TransformOp) : Option HMatrix :=
  match l with
  | [] => none
  | _ :: _ =>
      some (l.foldl (fun result subtrans => subtrans.get_matrix.mul result)
        HMatrix.identity)

/-- The quadratic coefficient `a = v·v` of `ray_sphere` /
`Sphere::intersect_local` (source `render.rs` line 52, `main.rs` line 303). -/
def Ray.qa (rv : Ray) : ℝ := rv.v.dot rv.v

/-- The coefficient `b = 2*(r0·v)` (source `render.rs` line 53). -/
def Ray.qb (rv : Ray) : ℝ := 2 * rv.r0.dotDir rv.v

/-- The coefficient `c = r0·r0 − 1` (source `render.rs` line 54). -/
def Ray.qc (rv : Ray) : ℝ := rv.r0.dot rv.r0 - 1

/-- The discriminant `d = b*b − 4*a*c` (source `render.rs` line 55). -/
def Ray.qd (rv : Ray) : ℝ := rv.qb * rv.qb - 4 * rv.qa * rv.qc

/-- The root `tp = (−b + √d)/(2a)` (source `render.rs` line 59). -/
def Ray.tp (rv : Ray) : ℝ := (-rv.qb + Real.sqrt rv.qd) / (2 * rv.qa)

/-- The root `tm = (−b − √d)/(2a)` (source `render.rs` line 60). -/
def Ray.tm (rv : Ray) : ℝ := (-rv.qb - Real.sqrt rv.qd) / (2 * rv.qa)

/-- Source `main.rs` lines 302–329 `ray_sphere`, textually identical to
`Sphere::intersect_local` in `render.rs` lines 51–78: closed-form
ray–unit-sphere intersection with nearest-valid-root selection. -/
def ray_sphere (rv : Ray) : Option ℝ :=
  if rv.qd < 0 then none
  else if rv.tp < 0 ∧ rv.tm < 0 then none
  else if rv.tp < 0 then some rv.tm
  else if rv.tm < 0 then some rv.tp
  else if rv.tp < rv.tm then some rv.tp
  else some rv.tm

/-- Source `render.rs` lines 26–30: the `Sphere` node with its cached
transforms and transform list. -/
structure Sphere where
  m_rb : HMatrix
  m_br : HMatrix
  transforms : List TransformOp

/-- Source `render.rs` lines 33–35: `Sphere::make` — caches initialised to
the identity, empty transform list. -/
def Sphere.make : Sphere :=
  ⟨HMatrix.identity, HMatrix.identity, []⟩

/-- Source `render.rs` lines 8–11: the `Render::translate` default method,
pushing a `Translate` onto the node's transform list (for `Sphere`). -/
def Sphere.translate (s : Sphere) (x y z : ℝ) : Sphere :=
  ⟨s.m_rb, s.m_br, s.transforms ++ [TransformOp.translate x y z]⟩

/-- Source `render.rs` lines 51–78: `Sphere::intersect_local` (the body is
textually identical to `ray_sphere`; `self` is unused by the source). -/
def Sphere.intersect_local (_s : Sphere) (rv : Ray) : Option ℝ :=
  ray_sphere rv

/-- Source `render.rs` lines 12–14: the `Render::intersect` default method —
transform the reference-frame ray into the body frame with the cached
`M_br`, then intersect locally. -/
def Sphere.intersect (s : Sphere) (rv_r : Ray) : Option ℝ :=
  s.intersect_local (s.m_br.mul_ray rv_r)

/-- Source `render.rs` lines 18–23: the `Render::prepare_render` default
method for `Sphere`: cache `M_rb = fold(transforms)` and `M_br = M_rb⁻¹`.
The outer `Option` is the panic channel inherited from
`TransformList.get_matrix` (panic on an empty transform list). -/
def Sphere.prepare_render (s : Sphere) : Option Sphere :=
  (TransformList.get_matrix s.transforms).map
    (fun M_rb => ⟨M_rb, M_rb.inv, s.transforms⟩)

/-- Source `render.rs` lines 152–163: the accumulator update of
`Union::intersect_local`: a child result replaces the best-so-far when the
best is `None` or the child's `Some(t)` is strictly smaller. -/
def Union.step (result this_result : Option ℝ) : Option ℝ :=
  match this_result with
  | some t =>
      match result with
      | none => some t
      | some tbest => if t < tbest then some t else some tbest
  | none => result

/-- Source `render.rs` lines 125–167: `Union::intersect_local`. Children are
modelled by their `intersect` behaviour (`Ray → Option ℝ`); every child is
called with the ray in the Union's body frame. The source starts from
`self.itemList[0].intersect(rv_b)`, which panics when the child list is
empty — modelled by the outer `none`. -/
def Union.intersect_local (itemList : List (Ray → Option ℝ)) (rv_b : Ray) :
    Option (Option ℝ) :=
  match itemList with
  | [] => none
  | c0 :: rest =>
      some ((rest.map (fun this_render => this_render rv_b)).foldl
        Union.step (c0 rv_b))

/-- IEEE-f64 special values, used to model the unguarded division by zero in
`Matrix3x3::inv`. Finite arithmetic is exact (rounding is not modelled; it
is irrelevant to the singular case, whose hypothesis fixes the computed
determinant at zero). -/
inductive F64 where
  | fin (x : ℝ)
  | inf
  | ninf
  | nan

/-- A value is finite exactly when it is neither NaN nor ±∞. -/
def F64.isFinite : F64 → Bool
  | .fin _ => true
  | _ => false

/-- IEEE division of two exact finite values: `x / 0` is NaN when `x = 0`
and ±∞ otherwise (the zero produced by the source's determinant sum is
modelled unsigned, as IEEE `+0.0`, the round-to-nearest result of a sum that
cancels; a negatively-signed zero would only swap `inf` and `ninf`). -/
def F64.div (x y : ℝ) : F64 :=
  if y = 0 then
    (if x = 0 then .nan else if 0 < x then .inf else .ninf)
  else .fin (x / y)

/-- IEEE multiplication restricted to the shapes reached by
`Matrix3x3::inv`: a finite value times the (possibly non-finite) reciprocal
of the determinant. -/
def F64.mulF (x : ℝ) : F64 → F64
  | .fin y => .fin (x * y)
  | .inf => if x = 0 then .nan else if 0 < x then .inf else .ninf
  | .ninf => if x = 0 then .nan else if 0 < x then .ninf else .inf
  | .nan => .nan

/-- A 3×3 matrix of IEEE values, the result type of the IEEE-level model of
`Matrix3x3::inv`. -/
structure F64Mat where
  e00 : F64
  e01 : F64
  e02 : F64
  e10 : F64
  e11 : F64
  e12 : F64
  e20 : F64
  e21 : F64
  e22 : F64

/-- True when at least one entry is finite. -/
def F64Mat.anyFinite (m : F64Mat) : Bool :=
  m.e00.isFinite || m.e01.isFinite || m.e02.isFinite ||
  m.e10.isFinite || m.e11.isFinite || m.e12.isFinite ||
  m.e20.isFinite || m.e21.isFinite || m.e22.isFinite

/-- IEEE-level model of `Matrix3x3::inv` (source `vector.rs` lines 117–130):
the cofactors and the determinant are computed in exact finite arithmetic,
`detinv = 1.0/det` uses IEEE division, and each output entry is the IEEE
product `cofactor * detinv`. -/
def Matrix3x3.inv_f64 (m : Matrix3x3) : F64Mat :=
  let a := m.e00; let b := m.e01; let c := m.e02
  let d := m.e10; let e := m.e11; let f := m.e12
  let g := m.e20; let h := m.e21; let i := m.e22
  let A := e*i - f*h; let D := c*h - b*i; let G := b*f - c*e
  let B := f*g - d*i; let E := a*i - c*g; let H := c*d - a*f
  let C := d*h - e*g; let F := b*g - a*h; let I := a*e - b*d
  let detinv := F64.div 1 (a*A + b*B + c*C)
  ⟨F64.mulF A detinv, F64.mulF D detinv, F64.mulF G detinv,
   F64.mulF B detinv, F64.mulF E detinv, F64.mulF H detinv,
   F64.mulF C detinv, F64.mulF F detinv, F64.mulF I detinv⟩

/-! ### Shared helper lemmas -/

/-- The spec-modelled identity transform leaves a ray unchanged. -/
lemma HMatrix.identity_mul_ray (rv : Ray) :
    HMatrix.identity.mul_ray rv = rv := by
  ext <;>
    simp [HMatrix.mul_ray, HMatrix.mul_pos, HMatrix.mul_dir, HMatrix.identity,
      Matrix3x3.mul_pos, Matrix3x3.mul_dir, Position.add_dir]

/-- Square root of four. -/
lemma sqrt_four : Real.sqrt 4 = 2 := by
  rw [show (4 : ℝ) = 2 ^ 2 by norm_num, Real.sqrt_sq (by norm_num : (0:ℝ) ≤ 2)]

/-- Evaluation of the solver on an axial ray `(0,0,z0) + t·(0,0,1)` starting
at or before the near surface of the unit sphere. -/
lemma ray_sphere_axial (z0 : ℝ) (h : z0 ≤ -1) :
    ray_sphere ⟨⟨0, 0, z0⟩, ⟨0, 0, 1⟩⟩ = some (-1 - z0) := by
  have hqa : Ray.qa ⟨⟨0, 0, z0⟩, ⟨0, 0, 1⟩⟩ = 1 := by
    simp [Ray.qa, Direction.dot]
  have hqb : Ray.qb ⟨⟨0, 0, z0⟩, ⟨0, 0, 1⟩⟩ = 2 * z0 := by
    simp [Ray.qb, Position.dotDir]
  have hqd : Ray.qd ⟨⟨0, 0, z0⟩, ⟨0, 0, 1⟩⟩ = 4 := by
    simp [Ray.qd, Ray.qa, Ray.qb, Ray.qc, Position.dot, Position.dotDir,
      Direction.dot]
    ring
  have htp : Ray.tp ⟨⟨0, 0, z0⟩, ⟨0, 0, 1⟩⟩ = 1 - z0 := by
    unfold Ray.tp
    rw [hqa, hqb, hqd, sqrt_four]
    ring
  have htm : Ray.tm ⟨⟨0, 0, z0⟩, ⟨0, 0, 1⟩⟩ = -1 - z0 := by
    unfold Ray.tm
    rw [hqa, hqb, hqd, sqrt_four]
    ring
  unfold ray_sphere
  rw [hqd, htp, htm]
  rw [if_neg (by norm_num : ¬(4 : ℝ) < 0)]
  rw [if_neg (by intro hc; rcases hc with ⟨h1, h2⟩; linarith)]
  rw [if_neg (by intro hc; linarith)]
  rw [if_neg (by intro hc; linarith)]
  rw [if_neg (by intro hc; linarith)]

/-! ### Claim theorems -/

/-- Claim C5 (code_bug): folding the empty transform list does not return
`identity()`; the source's `&self[0]` panics on an empty `Vec` (modelled by
`none`). -/
theorem claim_C5_empty_fold_panics :
    TransformList.get_matrix ([] : List TransformOp) = none := rfl

/-- Claim C10 (confirmed): `Union::intersect_local` panics exactly on an
empty child list (the unconditional `itemList[0]`); the no-intersection
result (`some none`) is only reachable with at least one child. -/
theorem claim_C10_empty_union_panics :
    ∀ (itemList : List (Ray → Option ℝ)) (rv_b : Ray),
      Union.intersect_local itemList rv_b = none ↔ itemList = [] := by
  intro itemList rv_b
  cases itemList <;> simp [Union.intersect_local]

/-- Claim C9 (confirmed): applying a `Translate` matrix to a `Direction`
leaves it unchanged, and translating a `Position` by Δ and then by −Δ
returns the original position. -/
theorem claim_C9_translate_duality :
    ∀ (dx dy dz : ℝ) (v : Direction) (p : Position),
      ((TransformOp.translate dx dy dz).get_matrix.mul_dir v = v) ∧
      ((TransformOp.translate (-dx) (-dy) (-dz)).get_matrix.mul_pos
        ((TransformOp.translate dx dy dz).get_matrix.mul_pos p) = p) := by
  intro dx dy dz v p
  constructor <;>
    (ext <;>
      simp [TransformOp.get_matrix, HMatrix.mul_dir, HMatrix.mul_pos,
        Matrix3x3.mul_dir, Matrix3x3.mul_pos, Position.add_dir])

/-- Claim C1 (code_bug): the translation part of `HMatrix::mul` follows the
spec (`A.M·B.T + A.T`, first conjunct), but the linear part is
`A.M · A.M`, not `A.M · B.M`: at `A = UniformScale(2)`, `B = identity` the
code produces entry `(0,0) = 4` while the claimed product has entry `2`. -/
theorem claim_C1_mul_linear_part :
    (∀ A B : HMatrix, (A.mul B).T = (A.M.mul_dir B.T).add_dir A.T) ∧
    (HMatrix.mul ⟨⟨2, 0, 0, 0, 2, 0, 0, 0, 2⟩, ⟨0, 0, 0⟩⟩
      HMatrix.identity).M.e00 = 4 ∧
    (Matrix3x3.mul (⟨2, 0, 0, 0, 2, 0, 0, 0, 2⟩ : Matrix3x3)
      HMatrix.identity.M).e00 = 2 := by
  refine ⟨fun A B => rfl, ?_, ?_⟩ <;>
    simp [HMatrix.mul, Matrix3x3.mul, HMatrix.identity] <;> norm_num

/-- Claim C2 (code_bug): the transform-list fold does not produce the
claimed right-to-left composition. Already on the one-element list
`[UniformScale(2)]` the code yields linear part `diag(4)` (first two
conjuncts; the claimed net for a singleton is the op's own matrix,
`diag(2)`), because `HMatrix::mul` squares its left operand's linear part.
On `[Translate(1,0,0), UniformScale(2)]` the code yields
`{M = diag(4), T = (2,0,0)}` while the claimed net
`compose(op0, op1)` is `{M = diag(2), T = (1,0,0)}` (last two conjuncts) —
the code also applies the earlier op innermost, not outermost. -/
theorem claim_C2_fold_eval :
    TransformList.get_matrix [TransformOp.uniformScale 2]
      = some ⟨⟨4, 0, 0, 0, 4, 0, 0, 0, 4⟩, ⟨0, 0, 0⟩⟩ ∧
    (TransformOp.uniformScale 2).get_matrix
      = ⟨⟨2, 0, 0, 0, 2, 0, 0, 0, 2⟩, ⟨0, 0, 0⟩⟩ ∧
    TransformList.get_matrix
        [TransformOp.translate 1 0 0, TransformOp.uniformScale 2]
      = some ⟨⟨4, 0, 0, 0, 4, 0, 0, 0, 4⟩, ⟨2, 0, 0⟩⟩ ∧
    HMatrix.composeSpec (TransformOp.translate 1 0 0).get_matrix
        (TransformOp.uniformScale 2).get_matrix
      = ⟨⟨2, 0, 0, 0, 2, 0, 0, 0, 2⟩, ⟨1, 0, 0⟩⟩ := by
  refine ⟨?_, ?_, ?_, ?_⟩ <;>
    simp [TransformList.get_matrix, TransformOp.get_matrix, HMatrix.mul,
      HMatrix.identity, Matrix3x3.mul, Matrix3x3.mul_dir, Direction.add_dir,
      HMatrix.composeSpec] <;>
    norm_num

/-- Claim C3 (confirmed): for a non-degenerate direction (`v·v ≠ 0`) the
solver returns `none` exactly when the discriminant is negative or both
roots are negative, and otherwise returns the smallest non-negative root
among `tp` and `tm`. -/
theorem claim_C3_nearest_valid_root (rv : Ray) (ha : rv.v.dot rv.v ≠ 0) :
    (ray_sphere rv = none ↔ (rv.qd < 0 ∨ (rv.tp < 0 ∧ rv.tm < 0))) ∧
    (¬rv.qd < 0 → ¬(rv.tp < 0 ∧ rv.tm < 0) →
      ∃ t, ray_sphere rv = some t ∧ 0 ≤ t ∧ (t = rv.tp ∨ t = rv.tm) ∧
        (0 ≤ rv.tp → t ≤ rv.tp) ∧ (0 ≤ rv.tm → t ≤ rv.tm)) := by
  have ha' : rv.qa ≠ 0 := ha
  have hqa_nonneg : 0 ≤ rv.qa := by
    unfold Ray.qa Direction.dot
    nlinarith [mul_self_nonneg rv.v.x, mul_self_nonneg rv.v.y,
      mul_self_nonneg rv.v.z]
  have hqa_pos : 0 < rv.qa := lt_of_le_of_ne hqa_nonneg (Ne.symm ha')
  have hmple : rv.tm ≤ rv.tp := by
    unfold Ray.tp Ray.tm
    rw [div_le_div_iff_of_pos_right (by linarith : 0 < 2 * rv.qa)]
    have := Real.sqrt_nonneg rv.qd
    linarith
  unfold ray_sphere
  split_ifs with h1 h2 h3 h4 h5
  · exact ⟨by simp [h1], fun hd _ => absurd h1 hd⟩
  · exact ⟨by simp [h2], fun _ hn => absurd h2 hn⟩
  · exact absurd ⟨h3, lt_of_le_of_lt hmple h3⟩ h2
  · refine ⟨by simp [h1, h2], fun _ _ => ?_⟩
    exact ⟨rv.tp, rfl, not_lt.mp h3, Or.inl rfl, fun _ => le_refl _,
      fun htm0 => absurd h4 (not_lt.mpr htm0)⟩
  · exact absurd (lt_of_lt_of_le h5 hmple) (lt_irrefl _)
  · refine ⟨by simp [h1, h2], fun _ _ => ?_⟩
    exact ⟨rv.tm, rfl, not_lt.mp h4, Or.inr rfl, fun _ => hmple,
      fun _ => le_refl _⟩

/-- Witness for C3 at the concrete ray `(0,0,−2) + t·(0,0,1)`. -/
theorem claim_C3_witness :
    (Direction.dot ⟨0, 0, 1⟩ ⟨0, 0, 1⟩ ≠ 0) ∧
    ((ray_sphere ⟨⟨0, 0, -2⟩, ⟨0, 0, 1⟩⟩ = none ↔
        (Ray.qd ⟨⟨0, 0, -2⟩, ⟨0, 0, 1⟩⟩ < 0 ∨
          (Ray.tp ⟨⟨0, 0, -2⟩, ⟨0, 0, 1⟩⟩ < 0 ∧
            Ray.tm ⟨⟨0, 0, -2⟩, ⟨0, 0, 1⟩⟩ < 0))) ∧
      (¬Ray.qd ⟨⟨0, 0, -2⟩, ⟨0, 0, 1⟩⟩ < 0 →
        ¬(Ray.tp ⟨⟨0, 0, -2⟩, ⟨0, 0, 1⟩⟩ < 0 ∧
            Ray.tm ⟨⟨0, 0, -2⟩, ⟨0, 0, 1⟩⟩ < 0) →
        ∃ t, ray_sphere ⟨⟨0, 0, -2⟩, ⟨0, 0, 1⟩⟩ = some t ∧ 0 ≤ t ∧
          (t = Ray.tp ⟨⟨0, 0, -2⟩, ⟨0, 0, 1⟩⟩ ∨
            t = Ray.tm ⟨⟨0, 0, -2⟩, ⟨0, 0, 1⟩⟩) ∧
          (0 ≤ Ray.tp ⟨⟨0, 0, -2⟩, ⟨0, 0, 1⟩⟩ →
            t ≤ Ray.tp ⟨⟨0, 0, -2⟩, ⟨0, 0, 1⟩⟩) ∧
          (0 ≤ Ray.tm ⟨⟨0, 0, -2⟩, ⟨0, 0, 1⟩⟩ →
            t ≤ Ray.tm ⟨⟨0, 0, -2⟩, ⟨0, 0, 1⟩⟩))) :=
  ⟨by norm_num [Direction.dot],
   claim_C3_nearest_valid_root ⟨⟨0, 0, -2⟩, ⟨0, 0, 1⟩⟩
     (by norm_num [Direction.dot])⟩

/-- The accumulator update is `none` only when both inputs are. -/
lemma Union.step_eq_none (acc x : Option ℝ) :
    Union.step acc x = none ↔ acc = none ∧ x = none := by
  cases x with
  | none => simp [Union.step]
  | some t =>
      cases acc with
      | none => simp [Union.step]
      | some tbest =>
          simp only [Union.step]
          split_ifs <;> simp

/-- A `some` produced by the accumulator update comes from one of its two
inputs and bounds both. -/
lemma Union.step_eq_some (acc x : Option ℝ) (t : ℝ)
    (h : Union.step acc x = some t) :
    (acc = some t ∨ x = some t) ∧
    (∀ s, acc = some s → t ≤ s) ∧ (∀ s, x = some s → t ≤ s) := by
  cases x with
  | none =>
      simp only [Union.step] at h
      subst h
      exact ⟨Or.inl rfl, fun s hs => le_of_eq (Option.some_inj.mp hs),
        fun s hs => by simp at hs⟩
  | some tx =>
      cases acc with
      | none =>
          simp only [Union.step] at h
          have h' : tx = t := Option.some_inj.mp h
          subst h'
          exact ⟨Or.inr rfl, fun s hs => by simp at hs,
            fun s hs => le_of_eq (Option.some_inj.mp hs)⟩
      | some tbest =>
          simp only [Union.step] at h
          split_ifs at h with hlt
          · have h' : tx = t := Option.some_inj.mp h
            subst h'
            refine ⟨Or.inr rfl, fun s hs => ?_, fun s hs => ?_⟩
            · have h2 : tbest = s := Option.some_inj.mp hs
              subst h2
              exact le_of_lt hlt
            · exact le_of_eq (Option.some_inj.mp hs)
          · have h' : tbest = t := Option.some_inj.mp h
            subst h'
            refine ⟨Or.inl rfl,
              fun s hs => le_of_eq (Option.some_inj.mp hs),
              fun s hs => ?_⟩
            have h2 : tx = s := Option.some_inj.mp hs
            subst h2
            exact not_lt.mp hlt

/-- If the accumulator holds `some s`, the update still holds a value, which
is at most `s`. -/
lemma Union.step_acc_bound (acc x : Option ℝ) (s : ℝ) (h : acc = some s) :
    ∃ u, Union.step acc x = some u ∧ u ≤ s := by
  subst h
  cases x with
  | none => exact ⟨s, rfl, le_refl s⟩
  | some tx =>
      simp only [Union.step]
      split_ifs with hlt
      · exact ⟨tx, rfl, le_of_lt hlt⟩
      · exact ⟨s, rfl, le_refl s⟩

/-- If the incoming child result is `some s`, the update holds a value at
most `s`. -/
lemma Union.step_x_bound (acc x : Option ℝ) (s : ℝ) (h : x = some s) :
    ∃ u, Union.step acc x = some u ∧ u ≤ s := by
  subst h
  cases acc with
  | none => exact ⟨s, rfl, le_refl s⟩
  | some tbest =>
      simp only [Union.step]
      split_ifs with hlt
      · exact ⟨s, rfl, le_refl s⟩
      · exact ⟨tbest, rfl, not_lt.mp hlt⟩

/-- Full characterisation of the `Union::intersect_local` fold: the result
is `none` exactly when the accumulator and every child result are `none`,
and a `some t` result is one of the inputs and a lower bound of all of
them. -/
lemma Union.fold_spec (vals : List (Option ℝ)) :
    ∀ acc : Option ℝ,
      (vals.foldl Union.step acc = none ↔
        (acc = none ∧ ∀ x ∈ vals, x = none)) ∧
      (∀ t, vals.foldl Union.step acc = some t →
        (acc = some t ∨ some t ∈ vals) ∧
        (∀ s, acc = some s → t ≤ s) ∧ (∀ s, some s ∈ vals → t ≤ s)) := by
  induction vals with
  | nil =>
      intro acc
      refine ⟨by simp, fun t ht => ?_⟩
      simp only [List.foldl_nil] at ht
      subst ht
      exact ⟨Or.inl rfl, fun s hs => le_of_eq (Option.some_inj.mp hs),
        fun s hs => by simp at hs⟩
  | cons x xs ih =>
      intro acc
      have hstep := ih (Union.step acc x)
      constructor
      · rw [List.foldl_cons, hstep.1, Union.step_eq_none]
        simp only [List.mem_cons]
        constructor
        · rintro ⟨⟨ha, hx⟩, hxs⟩
          exact ⟨ha, fun y hy => hy.elim (fun h => h ▸ hx) (hxs y)⟩
        · rintro ⟨ha, hall⟩
          exact ⟨⟨ha, hall x (Or.inl rfl)⟩, fun y hy => hall y (Or.inr hy)⟩
      · intro t ht
        rw [List.foldl_cons] at ht
        obtain ⟨hmem, hbound, hxs⟩ := hstep.2 t ht
        refine ⟨?_, ?_, ?_⟩
        · rcases hmem with h | h
          · rcases (Union.step_eq_some acc x t h).1 with h' | h'
            · exact Or.inl h'
            · exact Or.inr (List.mem_cons.mpr (Or.inl h'.symm))
          · exact Or.inr (List.mem_cons.mpr (Or.inr h))
        · intro s hs
          obtain ⟨u, hu, hus⟩ := Union.step_acc_bound acc x s hs
          exact le_trans (hbound u hu) hus
        · intro s hs
          rcases List.mem_cons.mp hs with h | h
          · obtain ⟨u, hu, hus⟩ := Union.step_x_bound acc x s h.symm
            exact le_trans (hbound u hu) hus
          · exact hxs s h

/-- Claim C4 (confirmed): for a `Union` with at least one child,
`intersect_local` calls every child's `intersect` with the body-frame ray
and returns (without panicking) `none` exactly when no child intersects,
and otherwise the smallest `t` among the children's `Some(t)` results. -/
theorem claim_C4_union_nearest (itemList : List (Ray → Option ℝ))
    (rv_b : Ray) (h : itemList ≠ []) :
    ∃ r, Union.intersect_local itemList rv_b = some r ∧
      (r = none ↔ ∀ c ∈ itemList, c rv_b = none) ∧
      (∀ t, r = some t →
        (∃ c ∈ itemList, c rv_b = some t) ∧
        (∀ c ∈ itemList, ∀ s, c rv_b = some s → t ≤ s)) := by
  obtain ⟨c0, rest, rfl⟩ := List.exists_cons_of_ne_nil h
  have hdef : Union.intersect_local (c0 :: rest) rv_b
      = some ((rest.map (fun this_render => this_render rv_b)).foldl
          Union.step (c0 rv_b)) := rfl
  refine ⟨(rest.map (fun this_render => this_render rv_b)).foldl Union.step
    (c0 rv_b), hdef, ?_, ?_⟩
  · rw [(Union.fold_spec _ (c0 rv_b)).1]
    constructor
    · rintro ⟨h0, hall⟩ c hc
      rcases List.mem_cons.mp hc with rfl | hc'
      · exact h0
      · exact hall (c rv_b) (List.mem_map.mpr ⟨c, hc', rfl⟩)
    · intro hall
      refine ⟨hall c0 (List.mem_cons.mpr (Or.inl rfl)), fun x hx => ?_⟩
      obtain ⟨c, hc, rfl⟩ := List.mem_map.mp hx
      exact hall c (List.mem_cons.mpr (Or.inr hc))
  · intro t ht
    obtain ⟨hmem, h0, hrest⟩ := (Union.fold_spec _ (c0 rv_b)).2 t ht
    constructor
    · rcases hmem with h' | h'
      · exact ⟨c0, List.mem_cons.mpr (Or.inl rfl), h'⟩
      · obtain ⟨c, hc, hc'⟩ := List.mem_map.mp h'
        exact ⟨c, List.mem_cons.mpr (Or.inr hc), hc'⟩
    · intro c hc s hs
      rcases List.mem_cons.mp hc with rfl | hc'
      · exact h0 s hs
      · exact hrest s (List.mem_map.mpr ⟨c, hc', hs⟩)

/-- Witness for C4 with two constant children returning 5 and 2: the Union
returns the nearer `t = 2`. -/
theorem claim_C4_witness :
    (([fun _ => some (5 : ℝ), fun _ => some 2] :
        List (Ray → Option ℝ)) ≠ []) ∧
    (∃ r, Union.intersect_local
        [fun _ => some (5 : ℝ), fun _ => some 2]
        ⟨⟨0, 0, 0⟩, ⟨0, 0, 1⟩⟩ = some r ∧
      (r = none ↔ ∀ c ∈ ([fun _ => some (5 : ℝ), fun _ => some 2] :
          List (Ray → Option ℝ)), c ⟨⟨0, 0, 0⟩, ⟨0, 0, 1⟩⟩ = none) ∧
      (∀ t, r = some t →
        (∃ c ∈ ([fun _ => some (5 : ℝ), fun _ => some 2] :
            List (Ray → Option ℝ)), c ⟨⟨0, 0, 0⟩, ⟨0, 0, 1⟩⟩ = some t) ∧
        (∀ c ∈ ([fun _ => some (5 : ℝ), fun _ => some 2] :
            List (Ray → Option ℝ)),
          ∀ s, c ⟨⟨0, 0, 0⟩, ⟨0, 0, 1⟩⟩ = some s → t ≤ s))) :=
  ⟨by simp,
   claim_C4_union_nearest [fun _ => some (5 : ℝ), fun _ => some 2]
     ⟨⟨0, 0, 0⟩, ⟨0, 0, 1⟩⟩ (by simp)⟩

/-- Claim C8 (confirmed): the ray with origin `(0,0,−2)` and direction
`(0,0,1)` hits the untransformed unit sphere at exactly `t = 1`. -/
theorem claim_C8_unit_sphere_hit :
    ray_sphere ⟨⟨0, 0, -2⟩, ⟨0, 0, 1⟩⟩ = some 1 := by
  rw [ray_sphere_axial (-2) (by norm_num)]
  norm_num

/-- Claim C6 counterexample: `intersect` on an unprepared sphere (built by
`make` and `translate(0,0,10)`, `prepare_render` never called) does not fail:
it silently returns `Some(1.0)`, the intersection computed from the default
identity caches, whereas after `prepare_render` the same query returns
`Some(11.0)`. -/
theorem claim_C6_counterexample :
    Sphere.intersect (Sphere.translate Sphere.make 0 0 10)
        ⟨⟨0, 0, -2⟩, ⟨0, 0, 1⟩⟩ = some 1 ∧
    Sphere.prepare_render (Sphere.translate Sphere.make 0 0 10)
      = some ⟨⟨⟨1, 0, 0, 0, 1, 0, 0, 0, 1⟩, ⟨0, 0, 10⟩⟩,
              ⟨⟨1, 0, 0, 0, 1, 0, 0, 0, 1⟩, ⟨0, 0, -10⟩⟩,
              [TransformOp.translate 0 0 10]⟩ ∧
    Sphere.intersect ⟨⟨⟨1, 0, 0, 0, 1, 0, 0, 0, 1⟩, ⟨0, 0, 10⟩⟩,
        ⟨⟨1, 0, 0, 0, 1, 0, 0, 0, 1⟩, ⟨0, 0, -10⟩⟩,
        [TransformOp.translate 0 0 10]⟩ ⟨⟨0, 0, -2⟩, ⟨0, 0, 1⟩⟩
      = some 11 := by
  refine ⟨?_, ?_, ?_⟩
  · unfold Sphere.intersect Sphere.intersect_local
    rw [show (Sphere.translate Sphere.make 0 0 10).m_br = HMatrix.identity
      from rfl, HMatrix.identity_mul_ray]
    rw [ray_sphere_axial (-2) (by norm_num)]
    norm_num
  · simp only [Sphere.prepare_render, Sphere.translate, Sphere.make,
      TransformList.get_matrix, TransformOp.get_matrix, HMatrix.mul,
      HMatrix.identity, HMatrix.inv, Matrix3x3.mul, Matrix3x3.mul_dir,
      Matrix3x3.inv, Matrix3x3.mul_neg_dir, Direction.add_dir,
      List.nil_append, List.foldl_cons, List.foldl_nil, Option.map_some]
    norm_num
  · unfold Sphere.intersect Sphere.intersect_local
    have h2 : (⟨⟨1, 0, 0, 0, 1, 0, 0, 0, 1⟩, ⟨0, 0, -10⟩⟩ :
        HMatrix).mul_ray ⟨⟨0, 0, -2⟩, ⟨0, 0, 1⟩⟩
        = ⟨⟨0, 0, -12⟩, ⟨0, 0, 1⟩⟩ := by
      ext <;>
        simp [HMatrix.mul_ray, HMatrix.mul_pos, HMatrix.mul_dir,
          Matrix3x3.mul_pos, Matrix3x3.mul_dir, Position.add_dir] <;>
        norm_num
    rw [show (⟨⟨⟨1, 0, 0, 0, 1, 0, 0, 0, 1⟩, ⟨0, 0, 10⟩⟩,
        ⟨⟨1, 0, 0, 0, 1, 0, 0, 0, 1⟩, ⟨0, 0, -10⟩⟩,
        [TransformOp.translate 0 0 10]⟩ : Sphere).m_br
      = ⟨⟨1, 0, 0, 0, 1, 0, 0, 0, 1⟩, ⟨0, 0, -10⟩⟩ from rfl, h2]
    rw [ray_sphere_axial (-12) (by norm_num)]
    norm_num

/-- Claim C6 amended: `intersect` on a node whose caches were never
populated does not fail at all; it silently intersects with the default
identity caches, i.e. behaves exactly as if the node were untransformed,
whatever transforms have been attached. -/
theorem claim_C6_amended (tl : List TransformOp) (rv : Ray) :
    Sphere.intersect ⟨HMatrix.identity, HMatrix.identity, tl⟩ rv
      = ray_sphere rv := by
  unfold Sphere.intersect Sphere.intersect_local
  rw [show (⟨HMatrix.identity, HMatrix.identity, tl⟩ : Sphere).m_br
    = HMatrix.identity from rfl, HMatrix.identity_mul_ray]

/-- A finite value times +∞ is never finite (it is NaN or ±∞). -/
lemma F64.mulF_inf_not_finite (x : ℝ) :
    (F64.mulF x F64.inf).isFinite = false := by
  simp only [F64.mulF]
  split_ifs <;> rfl

/-- Claim C7 (confirmed): when the determinant computed inside
`Matrix3x3::inv` is exactly zero, the unguarded `1.0/det` produces ∞ and
every entry of the returned matrix is non-finite (NaN or ±∞); the function
is total, so no check or error interrupts it. -/
theorem claim_C7_singular_inverse (m : Matrix3x3) (h : m.det = 0) :
    (m.inv_f64).anyFinite = false := by
  unfold Matrix3x3.det at h
  have hdiv : F64.div 1 (m.e00 * (m.e11*m.e22 - m.e12*m.e21) +
      m.e01 * (m.e12*m.e20 - m.e10*m.e22) +
      m.e02 * (m.e10*m.e21 - m.e11*m.e20)) = F64.inf := by
    unfold F64.div
    rw [if_pos h, if_neg one_ne_zero, if_pos one_pos]
  simp only [Matrix3x3.inv_f64, F64Mat.anyFinite]
  rw [hdiv]
  simp [F64.mulF_inf_not_finite]

/-- Witness for C7 at the all-zero (singular) matrix. -/
theorem claim_C7_witness :
    (Matrix3x3.det ⟨0, 0, 0, 0, 0, 0, 0, 0, 0⟩ = 0) ∧
    ((⟨0, 0, 0, 0, 0, 0, 0, 0, 0⟩ : Matrix3x3).inv_f64.anyFinite = false) :=
  ⟨by norm_num [Matrix3x3.det],
   claim_C7_singular_inverse ⟨0, 0, 0, 0, 0, 0, 0, 0, 0⟩
     (by norm_num [Matrix3x3.det])⟩

end

end Kwantrace
